import Mathlib

/-!
Verification development for the CardioKinetic Monte Carlo simulation engine
(`monte_carlo_simulation.py`).  Python floats are modelled as exact rationals
(template parsing, which only adds/divides) or reals (the load / score
formulas, which use `exp` and fractional powers); Python exceptions are
modelled with `Except`.
-/

deriving instance DecidableEq for Except

attribute [local semireducible] Rat.mul Rat.add Rat.inv Rat.sub

namespace CardioKinetic

/-- A Python exception value, as far as the engine can raise one. -/
inductive PyError
  | valueError
  deriving DecidableEq, Repr

/-- A template `position` value: a Python `int`, a Python `str`, or any
other value (`None`, a float, a list, ...), which the code treats uniformly. -/
inductive PosV
  | intV (n : ℤ)
  | strV (s : String)
  | other
  deriving DecidableEq, Repr

/-- Sum the digits of a character list into a natural number; models the
integer part of CPython's `float()` string parser.  Any non-digit makes the
whole parse fail (handled by the caller, which splits on digit runs). -/
def digitsVal (cs : List Char) : ℕ :=
  cs.foldl (fun acc c => acc * 10 + (c.toNat - 48)) 0

/-- Models CPython's `float(s)` on the sign/digits/fraction fragment of its
grammar (`[+-] digits [. digits]`, at least one digit overall; no exponent,
no `inf`/`nan`, no surrounding whitespace), returning the exact rational
value, or `none` when `float()` would raise `ValueError`. -/
def parseDecimal? (cs : List Char) : Option ℚ :=
  let (neg, cs1) : Bool × List Char :=
    match cs with
    | '-' :: r => (true, r)
    | '+' :: r => (false, r)
    | r => (false, r)
  let intPart := cs1.takeWhile Char.isDigit
  let rest1 := cs1.dropWhile Char.isDigit
  match rest1 with
  | [] =>
      if intPart.isEmpty then none
      else some ((if neg then -1 else 1) * (digitsVal intPart : ℚ))
  | '.' :: fracCs =>
      let fracPart := fracCs.takeWhile Char.isDigit
      let rest2 := fracCs.dropWhile Char.isDigit
      if rest2.isEmpty && !(intPart.isEmpty && fracPart.isEmpty) then
        some ((if neg then -1 else 1) *
          ((digitsVal intPart : ℚ) + (digitsVal fracPart : ℚ) / 10 ^ fracPart.length))
      else none
  | _ => none

/-- Round half to even, the convention of both Python's built-in `round`
and NumPy's `np.round`. -/
def roundHalfEven {K : Type} [LinearOrderedField K] [FloorRing K] (x : K) : ℤ :=
  if x - ⌊x⌋ < 1 / 2 then ⌊x⌋
  else if 1 / 2 < x - ⌊x⌋ then ⌊x⌋ + 1
  else if ⌊x⌋ % 2 = 0 then ⌊x⌋ else ⌊x⌋ + 1

/-- `resolve_week_position(position, total_weeks)` (lines 134-151).
A string is inspected as its character list: the `endswith('%')` test becomes
`getLast? = some '%'`, `position[:-1]` becomes `dropLast`, and the
`float(...)` call becomes `parseDecimal?`, whose failure models the
`ValueError` that `float` raises on a malformed prefix. -/
def resolve_week_position (position : PosV) (total_weeks : ℤ) : Except PyError ℤ :=
  match position with
  | .intV n => .ok n
  | .strV s =>
      if s = "first" then .ok 1
      else if s = "last" then .ok total_weeks
      else if s.toList.getLast? = some '%' then
        match parseDecimal? s.toList.dropLast with
        | none => .error .valueError
        | some v =>
            let percentage := v / 100
            if percentage = 0 then .ok 1
            else
              let week := roundHalfEven (percentage * (total_weeks : ℚ)) + 1
              .ok (max 1 (min total_weeks week))
      else .ok 1
  | .other => .ok 1

/-- A week keyframe dictionary from the template's `weeks` list.  Each field
is optional, mirroring `dict.get(key, default)` lookups; rationals model the
exact values of the Python floats. -/
structure Keyframe where
  position : Option PosV := none
  phaseName : Option String := none
  focus : Option String := none
  powerMultiplier : Option ℚ := none
  targetRPE : Option ℚ := none
  durationMinutes : Option ℚ := none
  workRestRatio : Option String := none
  deriving DecidableEq, Repr

/-- The `WeekDefinition` dataclass (lines 64-73); `position` is always the
integer week number filled in by `interpolate_weeks`. -/
structure WeekDefinition where
  position : ℤ
  phase_name : String
  focus : String
  power_multiplier : ℚ
  target_rpe : ℚ
  duration_minutes : ℚ
  work_rest_ratio : String
  deriving DecidableEq, Repr

/-- Resolution pass of `interpolate_weeks` (lines 156-159): each keyframe is
paired with its resolved position, `w.get('position', 1)` supplying the
integer default `1`; an exception from `resolve_week_position` propagates. -/
def resolveAll (weeks : List Keyframe) (total_weeks : ℤ) :
    Except PyError (List (ℤ × Keyframe)) :=
  weeks.mapM fun w =>
    (resolve_week_position (w.position.getD (.intV 1)) total_weeks).map fun p => (p, w)

/-- Key order used by `resolved.sort(key=lambda x: x[0])`. -/
def posLe (a b : ℤ × Keyframe) : Prop := a.1 ≤ b.1

instance : DecidableRel posLe := fun a b => Int.decLe a.1 b.1

instance : IsTotal (ℤ × Keyframe) posLe := ⟨fun a b => Int.le_total a.1 b.1⟩

instance : IsTrans (ℤ × Keyframe) posLe := ⟨fun _ _ _ => Int.le_trans⟩

/-- The inner `for pos, w in resolved: ... else: break` scan (lines 171-176):
walk the sorted pairs, remembering the latest pair whose position is at most
`week_num`, stopping at the first larger position (`break`). -/
def scanActive (week_num : ℤ) : List (ℤ × Keyframe) → Option (ℤ × Keyframe) →
    Option (ℤ × Keyframe)
  | [], acc => acc
  | x :: rest, acc => if x.1 ≤ week_num then scanActive week_num rest (some x) else acc

/-- The `WeekDefinition` emitted for week `week_num` from the active keyframe
`w` (lines 181-189), with each missing dict field replaced by its default. -/
def mkWeekDef (week_num : ℤ) (w : Keyframe) (default_duration : ℚ) : WeekDefinition where
  position := week_num
  phase_name := w.phaseName.getD ("Week " ++ toString week_num)
  focus := w.focus.getD "Volume"
  power_multiplier := w.powerMultiplier.getD 1
  target_rpe := w.targetRPE.getD 6
  duration_minutes := w.durationMinutes.getD default_duration
  work_rest_ratio := w.workRestRatio.getD "1:1"

/-- The all-defaults `WeekDefinition` synthesized for week `i` when the
keyframe list is empty (lines 163-167). -/
def defaultWeekDef (i : ℤ) (default_duration : ℚ) : WeekDefinition where
  position := i
  phase_name := "Week " ++ toString i
  focus := "Volume"
  power_multiplier := 1
  target_rpe := 6
  duration_minutes := default_duration
  work_rest_ratio := "1:1"

/-- `interpolate_weeks(weeks, total_weeks, default_duration)` (lines 154-191).
`list.sort` is modelled by Mathlib's stable `insertionSort`; `range(1,
total_weeks + 1)` becomes `List.range' 1 total_weeks.toNat`.  Python sorts
`resolved` in place before the emptiness test, so the `resolved[0][1]`
fallback is the head of the sorted list. -/
def interpolate_weeks (weeks : List Keyframe) (total_weeks : ℤ)
    (default_duration : ℚ) : Except PyError (List WeekDefinition) :=
  (resolveAll weeks total_weeks).map fun resolved =>
    let sorted := List.insertionSort posLe resolved
    match sorted with
    | [] => (List.range' 1 total_weeks.toNat).map fun (i : ℕ) =>
        defaultWeekDef (i : ℤ) default_duration
    | first :: _ =>
        (List.range' 1 total_weeks.toNat).map fun (wn : ℕ) =>
          let current_def := (scanActive (wn : ℤ) sorted none).getD first
          mkWeekDef (wn : ℤ) current_def.2 default_duration

/-- Specification combinator for reasoning about `scanActive`: merge one pair
into the best pair seen so far, where "best" means largest position at most
`week_num`, later pairs winning ties (the incoming `x` stands *earlier* in the
original list than everything in the accumulator, so it only wins strictly). -/
def combineOpt (week_num : ℤ) (x : ℤ × Keyframe) :
    Option (ℤ × Keyframe) → Option (ℤ × Keyframe)
  | none => if x.1 ≤ week_num then some x else none
  | some z => if x.1 ≤ week_num ∧ z.1 < x.1 then some x else some z

/-- The break-free variant of `scanActive`: remember the last pair of the
whole list whose position is at most `week_num`. -/
def lastLeAux (week_num : ℤ) : List (ℤ × Keyframe) → Option (ℤ × Keyframe) →
    Option (ℤ × Keyframe)
  | [], acc => acc
  | x :: rest, acc =>
      lastLeAux week_num rest (if x.1 ≤ week_num then some x else acc)

/-- Right fold of `combineOpt` over the *unsorted* pair list: picks the pair
with the largest position at most `week_num`, the last such pair in original
order winning ties. -/
def pickActive (week_num : ℤ) : List (ℤ × Keyframe) → Option (ℤ × Keyframe)
  | [] => none
  | x :: xs => combineOpt week_num x (pickActive week_num xs)

/-- The batch-size computation of `run_monte_carlo_optimized`'s parallel path
(lines 349-357): worker `i` of `num_workers` gets `num_simulations //
num_workers` simulations plus one of the `num_simulations % num_workers`
remainder ones when `i < remainder`; zero-sized batches are skipped by the
`if size > 0` guard. -/
def batchSizes (num_simulations num_workers : ℕ) : List ℕ :=
  ((List.range num_workers).map fun i =>
      num_simulations / num_workers +
        if i < num_simulations % num_workers then 1 else 0).filter
    fun size => 0 < size

/-- The per-batch seeds of the parallel path (lines 355-358).  The loop body
runs `seed = np.random.SeedSequence().generate_state(1)[0] + i` once per kept
batch: a *fresh* `SeedSequence` is constructed on every iteration, so
`entropy i` models the 32-bit state word drawn from operating-system entropy
at iteration `i` (zero-sized batches are only ever skipped at the tail of the
loop, so kept iterations are numbered contiguously from 0).  The addition
wraps at 2^32, matching NumPy uint32 arithmetic. -/
def batchSeeds (entropy : ℕ → ℕ) (num_simulations num_workers : ℕ) : List ℕ :=
  ((List.range num_workers).filter fun i =>
      0 < num_simulations / num_workers +
        if i < num_simulations % num_workers then 1 else 0).map
    fun i => (entropy i + i) % 2 ^ 32

/-!  Real-valued model of the load and score formulas.  NumPy scalar float
operations are modelled on `ℝ`: `np.clip(x, lo, hi)` is `min (max x lo) hi`,
`np.power`/`**` with a real exponent is `Real.rpow`, `np.exp` is `Real.exp`,
and `np.round` (like Python's `round`) rounds half to even. -/

/-- `np.clip(x, lo, hi)`, i.e. `np.minimum(np.maximum(x, lo), hi)`. -/
noncomputable def npClip (x lo hi : ℝ) : ℝ := min (max x lo) hi

/-- Constants block (lines 45-57). -/
noncomputable def ATL_ALPHA : ℝ := 2 / (7 + 1)

/-- `CTL_ALPHA = 2.0 / (CTL_DAYS + 1)` with `CTL_DAYS = 42`. -/
noncomputable def CTL_ALPHA : ℝ := 2 / (42 + 1)

/-- `FATIGUE_MIDPOINT = 1.15`. -/
noncomputable def FATIGUE_MIDPOINT : ℝ := 1.15

/-- `FATIGUE_STEEPNESS = 4.5`. -/
noncomputable def FATIGUE_STEEPNESS : ℝ := 4.5

/-- `READINESS_OPTIMAL_TSB = 20.0`. -/
noncomputable def READINESS_OPTIMAL_TSB : ℝ := 20.0

/-- `READINESS_WIDTH = 1250.0`. -/
noncomputable def READINESS_WIDTH : ℝ := 1250.0

/-- `vectorized_session_load` (lines 80-86), per scalar entry:
`np.power(rpe, 1.5) * np.power(duration, 0.75) * np.power(np.clip(power_ratio,
0.25, 4.0), 0.5) * 0.3`. -/
noncomputable def vectorized_session_load (rpe duration power_ratio : ℝ) : ℝ :=
  let clamped_ratio := npClip power_ratio 0.25 4.0
  rpe ^ (1.5 : ℝ) * duration ^ (0.75 : ℝ) * clamped_ratio ^ (0.5 : ℝ) * 0.3

/-- The inline load expression of `run_single_simulation_fast` (line 281):
`(actual_rpe ** 1.5) * (duration ** 0.75) * (max(0.25, min(4.0, power_ratio))
** 0.5) * 0.3`. -/
noncomputable def inline_session_load (actual_rpe duration power_ratio : ℝ) : ℝ :=
  actual_rpe ^ (1.5 : ℝ) * duration ^ (0.75 : ℝ) *
    max 0.25 (min 4.0 power_ratio) ^ (0.5 : ℝ) * 0.3

/-- `vectorized_ewma(daily_loads, alpha, initial)` (lines 89-104): the loop
`current = current * decay + daily_loads[i] * alpha; result[i] = current`
running left to right over the load sequence. -/
noncomputable def vectorized_ewma (daily_loads : List ℝ) (alpha : ℝ)
    (initial : ℝ := 0.0) : List ℝ :=
  match daily_loads with
  | [] => []
  | l :: rest =>
      let current := initial * (1.0 - alpha) + l * alpha
      current :: vectorized_ewma rest alpha current

/-- `vectorized_fatigue_score` (lines 107-117), per scalar entry:
`np.clip(np.round(100 / (1 + np.exp(-4.5 * (atl / max(ctl, 0.001) - 1.15)))),
0, 100)`. -/
noncomputable def vectorized_fatigue_score (atl ctl : ℝ) : ℝ :=
  let ctl_safe := max ctl 0.001
  let acwr := atl / ctl_safe
  let score := 100.0 / (1.0 + Real.exp (-FATIGUE_STEEPNESS * (acwr - FATIGUE_MIDPOINT)))
  npClip (roundHalfEven score : ℝ) 0 100

/-- `vectorized_readiness_score` (lines 120-127), per scalar entry:
`np.clip(np.round(100 * np.exp(-(tsb - 20)^2 / 1250)), 0, 100)`. -/
noncomputable def vectorized_readiness_score (tsb : ℝ) : ℝ :=
  let exponent := -(tsb - READINESS_OPTIMAL_TSB) ^ (2 : ℕ) / READINESS_WIDTH
  let score := 100.0 * Real.exp exponent
  npClip (roundHalfEven score : ℝ) 0 100

/-- One scheduled session of one simulated week, carrying the random draws
the code obtains from `rng`: the chosen weekday (`rng.choice(7, ...)`), the
power perturbation (`rng.uniform(-0.05, 0.05)`) and the RPE perturbation
(`rng.uniform(-0.5, 0.5)`). -/
structure SessionDraw where
  day : Fin 7
  power_noise : ℝ
  rpe_noise : ℝ

/-- The inputs of `run_single_simulation_fast` (lines 241-294): the per-day
planned parameter vectors, the base power, and the random draws of every
week (outer list indexed by week). -/
structure SimParams where
  num_weeks : ℕ
  base_power : ℝ
  power_mult : ℕ → ℝ
  target_rpe : ℕ → ℝ
  duration : ℕ → ℝ
  draws : List (List SessionDraw)

/-- The load the session `s` of week `week_idx` adds to its day
(lines 267-283): `actual_power = base_power * power_mult[day_idx] * (1 +
noise)`, `actual_rpe = np.clip(target_rpe[day_idx] + noise, 1, 10)`,
`power_ratio = actual_power / base_power`, then the inline load formula. -/
noncomputable def session_load_at (P : SimParams) (week_idx : ℕ) (s : SessionDraw) : ℝ :=
  let day_idx := week_idx * 7 + (s.day : ℕ)
  let planned_power := P.base_power * P.power_mult day_idx
  let actual_power := planned_power * (1.0 + s.power_noise)
  let planned_rpe := P.target_rpe day_idx
  let actual_rpe := min (max (planned_rpe + s.rpe_noise) 1) 10
  let power_ratio := actual_power / P.base_power
  inline_session_load actual_rpe (P.duration day_idx) power_ratio

/-- The `daily_loads` array after the scheduling loops (lines 258-283): it
starts as `np.zeros(num_days)` and every session adds its load at index
`week_idx * 7 + day` via `+=`, so each day holds the sum of the loads of the
sessions that land on it. -/
noncomputable def sim_daily_loads (P : SimParams) : List ℝ :=
  (List.range (P.num_weeks * 7)).map fun d =>
    ((List.range P.num_weeks).map fun wk =>
      ((((P.draws.getD wk []).filter fun s => wk * 7 + (s.day : ℕ) = d).map
        (session_load_at P wk)).sum)).sum

/-- `atl = vectorized_ewma(daily_loads, ATL_ALPHA, initial=0.0)` (line 286). -/
noncomputable def sim_atl (P : SimParams) : List ℝ :=
  vectorized_ewma (sim_daily_loads P) ATL_ALPHA 0.0

/-- `ctl = vectorized_ewma(daily_loads, CTL_ALPHA, initial=10.0)` (line 287). -/
noncomputable def sim_ctl (P : SimParams) : List ℝ :=
  vectorized_ewma (sim_daily_loads P) CTL_ALPHA 10.0

/-- `run_single_simulation_fast`'s return value (lines 289-294): the fatigue
scores of `(atl, ctl)` pairs and the readiness scores of `tsb = ctl - atl`. -/
noncomputable def run_single_simulation_fast (P : SimParams) : List ℝ × List ℝ :=
  (List.zipWith vectorized_fatigue_score (sim_atl P) (sim_ctl P),
   List.zipWith (fun c a => vectorized_readiness_score (c - a)) (sim_ctl P) (sim_atl P))

/-!  ## Theorems -/

/-- C10: for every `totalWeeks ≥ 1`, `resolve_week_position` maps `"first"`
to `1` and `"last"` to `totalWeeks`; `"0%"` resolves to `1`; and every
percentage string whose prefix parses to some `p > 0` resolves to
`round((p/100)·totalWeeks) + 1` (round half to even, as Python's `round`)
clamped into `[1, totalWeeks]`. -/
theorem resolve_week_position_spec (N : ℤ) (hN : 1 ≤ N) (s : String) (p : ℚ)
    (hpct : s.toList.getLast? = some '%')
    (hparse : parseDecimal? s.toList.dropLast = some p) (hp : 0 < p) :
    resolve_week_position (.strV "first") N = .ok 1 ∧
    resolve_week_position (.strV "last") N = .ok N ∧
    resolve_week_position (.strV "0%") N = .ok 1 ∧
    resolve_week_position (.strV s) N =
      .ok (max 1 (min N (roundHalfEven (p / 100 * (N : ℚ)) + 1))) := by
  refine ⟨rfl, rfl, rfl, ?_⟩
  have hf : s ≠ "first" := by rintro rfl; exact absurd hpct (by decide)
  have hl : s ≠ "last" := by rintro rfl; exact absurd hpct (by decide)
  have hdiv : p / 100 ≠ 0 := div_ne_zero (ne_of_gt hp) (by norm_num)
  simp only [resolve_week_position]
  rw [if_neg hf, if_neg hl, if_pos hpct, hparse]
  simp only [if_neg hdiv]

/-- C10 witness: the spec at `N = 10`, `s = "50%"`, `p = 50`. -/
theorem resolve_week_position_spec_witness :
    resolve_week_position (.strV "first") 10 = .ok 1 ∧
    resolve_week_position (.strV "last") 10 = .ok 10 ∧
    resolve_week_position (.strV "0%") 10 = .ok 1 ∧
    resolve_week_position (.strV "50%") 10 =
      .ok (max 1 (min 10 (roundHalfEven ((50 : ℚ) / 100 * ((10 : ℤ) : ℚ)) + 1))) :=
  resolve_week_position_spec 10 (by decide) "50%" 50 (by decide) (by decide) (by decide)

/-- C1 (amended): every position value that is not an integer, not `"first"`
or `"last"`, and not a string ending in `'%'` — an arbitrary other string, or
a non-int non-str value such as `None` — resolves to `1` without raising.
(Strings ending in `'%'` whose prefix does not parse are excluded: they
raise `ValueError`, see `resolve_week_position_raises`.) -/
theorem resolve_week_position_default (N : ℤ) (s : String)
    (h1 : s ≠ "first") (h2 : s ≠ "last") (h3 : s.toList.getLast? ≠ some '%') :
    resolve_week_position (.strV s) N = .ok 1 ∧
    resolve_week_position .other N = .ok 1 := by
  constructor
  · simp only [resolve_week_position]
    rw [if_neg h1, if_neg h2, if_neg h3]
  · rfl

/-- C1 witness: the amended claim at `s = "hello"`, `N = 8`. -/
theorem resolve_week_position_default_witness :
    resolve_week_position (.strV "hello") 8 = .ok 1 ∧
    resolve_week_position .other 8 = .ok 1 :=
  resolve_week_position_default 8 "hello" (by decide) (by decide) (by decide)

/-- C1 counterexample: `"abc%"` is not an integer, not `"first"`/`"last"`,
and not a well-formed percentage string, yet `resolve_week_position` does
not return `1` — `float("abc")` raises `ValueError`. -/
theorem resolve_week_position_raises :
    resolve_week_position (.strV "abc%") 8 = .error .valueError := by decide

lemma sum_filter_pos (l : List ℕ) : (l.filter fun x => 0 < x).sum = l.sum := by
  induction l with
  | nil => rfl
  | cons a t ih =>
    rcases Nat.eq_zero_or_pos a with h | h
    · subst h; simpa [List.filter_cons] using ih
    · simp [List.filter_cons, h, ih]

lemma sum_map_add_const (q : ℕ) (g : ℕ → ℕ) (l : List ℕ) :
    (l.map fun i => q + g i).sum = l.length * q + (l.map g).sum := by
  induction l with
  | nil => simp
  | cons a t ih => simp [ih, Nat.succ_mul]; ring

lemma sum_map_ite_lt (r W : ℕ) :
    ((List.range W).map fun i => if i < r then 1 else 0).sum = min r W := by
  induction W with
  | zero => simp
  | succ W ih =>
    rw [List.range_succ, List.map_append, List.sum_append]
    by_cases h : W < r <;> simp [ih, h] <;> omega

/-- C9: whenever the parallel path partitions `numSimulations ≥ 500` across
`W > 1` workers, the batch sizes sum exactly to `numSimulations` and any two
batch sizes differ by at most 1; in particular 17 across 5 workers yields
`[4, 4, 3, 3, 3]`. -/
theorem batch_partition_spec (n W : ℕ) (h1 : 500 ≤ n) (h2 : 1 < W) :
    (batchSizes n W).sum = n ∧
    (∀ a ∈ batchSizes n W, ∀ b ∈ batchSizes n W, a ≤ b + 1) ∧
    batchSizes 17 5 = [4, 4, 3, 3, 3] := by
  refine ⟨?_, ?_, by decide⟩
  · unfold batchSizes
    rw [sum_filter_pos, sum_map_add_const, sum_map_ite_lt, List.length_range]
    have hr : n % W < W := Nat.mod_lt _ (by omega)
    rw [min_eq_left hr.le]
    exact Nat.div_add_mod n W
  · intro a ha b hb
    obtain ⟨i, -, rfl⟩ := List.mem_map.1 (List.mem_of_mem_filter ha)
    obtain ⟨j, -, rfl⟩ := List.mem_map.1 (List.mem_of_mem_filter hb)
    split_ifs <;> omega

/-- C9 witness: the partition spec at `n = 500`, `W = 2`. -/
theorem batch_partition_spec_witness :
    (batchSizes 500 2).sum = 500 ∧
    (∀ a ∈ batchSizes 500 2, ∀ b ∈ batchSizes 500 2, a ≤ b + 1) ∧
    batchSizes 17 5 = [4, 4, 3, 3, 3] :=
  batch_partition_spec 500 2 (by decide) (by decide)

/-- C2 counterexample: with `numSimulations = 500` and `2` workers (the
parallel path), if the fresh per-batch entropy draws return `1` for batch 0
and `0` for batch 1, both batches receive seed `1` — the seeds are *not*
pairwise distinct, because each loop iteration constructs a brand-new
`SeedSequence` instead of deriving offsets from a single global one. -/
theorem batch_seeds_can_collide :
    ¬ List.Pairwise (fun a b => a ≠ b)
      (batchSeeds (fun k => if k = 0 then 1 else 0) 500 2) := by decide

/-- C2 (amended): each batch's seed is the 32-bit state of a seed sequence
created freshly for that batch, plus the batch index (wrapping at `2^32`).
When all per-batch entropy draws happen to return one common value (the
behaviour the spec describes, a single global sequence) and there are at
most `2^32` workers, the seeds are pairwise distinct — but not in general,
see `batch_seeds_can_collide`. -/
theorem batch_seeds_offset_distinct (c n W : ℕ) (hW : W ≤ 2 ^ 32) :
    List.Pairwise (fun a b => a ≠ b) (batchSeeds (fun _ => c) n W) := by
  unfold batchSeeds
  rw [List.pairwise_map]
  have h1 : List.Pairwise (fun i j => i < j ∧ j < W) (List.range W) :=
    (List.pairwise_lt_range W).imp_of_mem fun ha hb hlt => ⟨hlt, List.mem_range.1 hb⟩
  refine (h1.filter _).imp ?_
  rintro i j ⟨hij, hjW⟩ heq
  have hmod : i % 2 ^ 32 = j % 2 ^ 32 :=
    Nat.ModEq.add_left_cancel' c heq
  rw [Nat.mod_eq_of_lt (lt_of_lt_of_le (hij.trans hjW) hW),
    Nat.mod_eq_of_lt (lt_of_lt_of_le hjW hW)] at hmod
  omega

/-- C2 witness: with a common entropy value `7`, 500 simulations across 3
workers receive pairwise distinct seeds. -/
theorem batch_seeds_offset_distinct_witness :
    List.Pairwise (fun a b => a ≠ b) (batchSeeds (fun _ => 7) 500 3) :=
  batch_seeds_offset_distinct 7 500 3 (by norm_num)

lemma clamp_comm (p : ℝ) : max 0.25 (min 4.0 p) = min (max p 0.25) 4.0 := by
  simp only [min_def, max_def]
  split_ifs <;> linarith

/-- C6: the session load is `exertion^1.5 × duration^0.75 ×
clamp(powerRatio, 0.25, 4.0)^0.5 × 0.3` with exactly these exponents, clamp
bounds and scale factor, and the vectorized implementation and the inline
per-session expression of `run_single_simulation_fast` agree on all inputs. -/
theorem session_load_spec (rpe duration power_ratio : ℝ) :
    vectorized_session_load rpe duration power_ratio =
      rpe ^ (1.5 : ℝ) * duration ^ (0.75 : ℝ) *
        (min (max power_ratio 0.25) 4.0) ^ (0.5 : ℝ) * 0.3 ∧
    inline_session_load rpe duration power_ratio =
      vectorized_session_load rpe duration power_ratio := by
  refine ⟨rfl, ?_⟩
  unfold inline_session_load vectorized_session_load npClip
  rw [clamp_comm]

lemma npClip_round_int (x : ℝ) :
    ∃ n : ℤ, npClip ((roundHalfEven x : ℤ) : ℝ) 0 100 = (n : ℝ) ∧ 0 ≤ n ∧ n ≤ 100 := by
  refine ⟨min (max (roundHalfEven x) 0) 100, ?_,
    le_min (le_max_right _ _) (by norm_num), min_le_right _ _⟩
  unfold npClip
  norm_cast

/-- C7: for all real ATL/CTL and TSB inputs, the fatigue score and the
readiness score are integer-valued and lie in `[0, 100]`. -/
theorem scores_are_bounded_integers (atl ctl tsb : ℝ) :
    (∃ n : ℤ, vectorized_fatigue_score atl ctl = (n : ℝ) ∧ 0 ≤ n ∧ n ≤ 100) ∧
    (∃ m : ℤ, vectorized_readiness_score tsb = (m : ℝ) ∧ 0 ≤ m ∧ m ≤ 100) :=
  ⟨npClip_round_int _, npClip_round_int _⟩

lemma roundHalfEven_intCast {K : Type} [LinearOrderedField K] [FloorRing K]
    (n : ℤ) : roundHalfEven ((n : K)) = n := by
  have h : (n : K) - ((⌊(n : K)⌋ : ℤ) : K) < 1 / 2 := by
    rw [Int.floor_intCast, sub_self]; norm_num
  unfold roundHalfEven
  rw [if_pos h, Int.floor_intCast]

/-- C8: when `ACWR = ATL / max(CTL, 0.001)` is exactly `1.15` the fatigue
score is exactly 50, and when `TSB` is exactly `20` the readiness score is
exactly 100. -/
theorem scores_at_calibration_points (atl ctl tsb : ℝ)
    (h1 : atl / max ctl 0.001 = 1.15) (h2 : tsb = 20) :
    vectorized_fatigue_score atl ctl = 50 ∧
    vectorized_readiness_score tsb = 100 := by
  constructor
  · unfold vectorized_fatigue_score npClip
    dsimp only
    rw [h1]
    have h50 : roundHalfEven (50 : ℝ) = 50 := by
      have h := roundHalfEven_intCast (K := ℝ) 50
      norm_num at h
      exact h
    norm_num [FATIGUE_MIDPOINT, FATIGUE_STEEPNESS, Real.exp_zero, h50]
  · unfold vectorized_readiness_score npClip
    dsimp only
    rw [h2]
    have h100 : roundHalfEven (100 : ℝ) = 100 := by
      have h := roundHalfEven_intCast (K := ℝ) 100
      norm_num at h
      exact h
    norm_num [READINESS_OPTIMAL_TSB, READINESS_WIDTH, Real.exp_zero, h100]

/-- C8 witness: the calibration points at `atl = 1.15`, `ctl = 1`,
`tsb = 20`. -/
theorem scores_at_calibration_points_witness :
    vectorized_fatigue_score 1.15 1 = 50 ∧ vectorized_readiness_score 20 = 100 :=
  scores_at_calibration_points 1.15 1 20 (by norm_num) rfl

lemma vectorized_ewma_length (loads : List ℝ) (alpha initial : ℝ) :
    (vectorized_ewma loads alpha initial).length = loads.length := by
  induction loads generalizing initial with
  | nil => rfl
  | cons l rest ih => simp [vectorized_ewma, ih]

lemma vectorized_ewma_step (loads : List ℝ) (alpha initial : ℝ) (i : ℕ)
    (prev li : ℝ)
    (h1 : (vectorized_ewma loads alpha initial)[i]? = some prev)
    (h2 : loads[i + 1]? = some li) :
    (vectorized_ewma loads alpha initial)[i + 1]? =
      some (prev * (1.0 - alpha) + li * alpha) := by
  induction loads generalizing initial i with
  | nil => simp [vectorized_ewma] at h1
  | cons l rest ih =>
    cases i with
    | zero =>
      cases rest with
      | nil => simp at h2
      | cons r rest' =>
        simp only [vectorized_ewma, List.getElem?_cons_zero,
          List.getElem?_cons_succ, Option.some.injEq] at h1 h2 ⊢
        subst h1
        subst h2
        rfl
    | succ i' =>
      simp only [vectorized_ewma, List.getElem?_cons_succ] at h1 h2 ⊢
      exact ih _ _ h1 h2

/-- C5: the EWMA satisfies `state₀ = seed·(1−α) + load₀·α` and
`stateᵢ = stateᵢ₋₁·(1−α) + loadᵢ·α` in index order (it also preserves the
length of the load sequence), and the simulation's ATL series uses
`α = 2/(7+1) = 0.25` with seed `0.0` while its CTL series uses
`α = 2/(42+1)` with seed `10.0`. -/
theorem ewma_recurrence_spec :
    (∀ (loads : List ℝ) (alpha initial : ℝ),
        (vectorized_ewma loads alpha initial).length = loads.length) ∧
    (∀ (l0 : ℝ) (rest : List ℝ) (alpha initial : ℝ),
        (vectorized_ewma (l0 :: rest) alpha initial)[0]? =
          some (initial * (1.0 - alpha) + l0 * alpha)) ∧
    (∀ (loads : List ℝ) (alpha initial : ℝ) (i : ℕ) (prev li : ℝ),
        (vectorized_ewma loads alpha initial)[i]? = some prev →
        loads[i + 1]? = some li →
        (vectorized_ewma loads alpha initial)[i + 1]? =
          some (prev * (1.0 - alpha) + li * alpha)) ∧
    ATL_ALPHA = 0.25 ∧ CTL_ALPHA = 2 / 43 ∧
    (∀ P : SimParams,
        sim_atl P = vectorized_ewma (sim_daily_loads P) ATL_ALPHA 0.0 ∧
        sim_ctl P = vectorized_ewma (sim_daily_loads P) CTL_ALPHA 10.0) :=
  ⟨vectorized_ewma_length, fun _ _ _ _ => by simp [vectorized_ewma],
    vectorized_ewma_step,
    by norm_num [ATL_ALPHA], by norm_num [CTL_ALPHA], fun _ => ⟨rfl, rfl⟩⟩

/-- C5 witness: the step recurrence evaluated on the load sequence `[2, 4]`
with `α = 1/4` and seed `0`. -/
theorem ewma_recurrence_spec_witness :
    (vectorized_ewma [(2 : ℝ), 4] (1 / 4) 0)[0 + 1]? =
      some (((0 * (1.0 - 1 / 4) + 2 * (1 / 4)) * (1.0 - 1 / 4) + 4 * (1 / 4) : ℝ)) :=
  ewma_recurrence_spec.2.2.1 [2, 4] (1 / 4) 0 0
    ((0 : ℝ) * (1.0 - 1 / 4) + 2 * (1 / 4)) 4 rfl rfl

/-- C4 counterexample: a keyframe list containing the malformed percentage
position `"abc%"` makes `interpolate_weeks` raise `ValueError` instead of
returning `totalWeeks` entries. -/
theorem interpolate_weeks_raises :
    interpolate_weeks [{ position := some (.strV "abc%") }] 1 10 =
      .error .valueError := by decide

/-- C4 (amended): for every `totalWeeks ≥ 1` and every keyframe list whose
positions all resolve without raising (in particular the empty list),
`interpolate_weeks` returns exactly `totalWeeks` `WeekDefinition`s whose
`position` fields are `1, 2, ..., totalWeeks` in order, and on the empty
list every entry is the documented all-defaults record. -/
theorem interpolate_weeks_shape (weeks : List Keyframe) (tw : ℤ) (dd : ℚ)
    (res : List WeekDefinition) (htw : 1 ≤ tw)
    (hout : interpolate_weeks weeks tw dd = .ok res) :
    res.length = tw.toNat ∧
    (∀ (i : ℕ) (h : i < res.length), res[i].position = (i : ℤ) + 1) ∧
    interpolate_weeks [] tw dd =
      .ok ((List.range' 1 tw.toNat).map fun (i : ℕ) => defaultWeekDef (i : ℤ) dd) := by
  have hmain : ∃ g : ℕ → WeekDefinition,
      res = (List.range' 1 tw.toNat).map g ∧ ∀ n, (g n).position = (n : ℤ) := by
    unfold interpolate_weeks at hout
    cases hres : resolveAll weeks tw with
    | error e =>
      rw [hres] at hout
      exact absurd hout (by simp [Except.map])
    | ok resolved =>
      rw [hres] at hout
      simp only [Except.map, Except.ok.injEq] at hout
      cases hs : List.insertionSort posLe resolved with
      | nil =>
        rw [hs] at hout
        refine ⟨_, hout.symm, fun n => ?_⟩
        rfl
      | cons first rest =>
        rw [hs] at hout
        refine ⟨_, hout.symm, fun n => ?_⟩
        rfl
  obtain ⟨g, rfl, hg⟩ := hmain
  refine ⟨by simp, ?_, rfl⟩
  intro i h
  rw [List.getElem_map, List.getElem_range', hg]
  push_cast
  ring

/-- C4 witness: the amended claim at the empty keyframe list, `totalWeeks =
2`, `defaultDuration = 5`. -/
theorem interpolate_weeks_shape_witness :
    ([defaultWeekDef 1 5, defaultWeekDef 2 5] : List WeekDefinition).length =
      (2 : ℤ).toNat ∧
    (∀ (i : ℕ)
        (h : i < ([defaultWeekDef 1 5, defaultWeekDef 2 5] : List WeekDefinition).length),
        ([defaultWeekDef 1 5, defaultWeekDef 2 5] : List WeekDefinition)[i].position =
          (i : ℤ) + 1) ∧
    interpolate_weeks [] 2 5 =
      .ok ((List.range' 1 (2 : ℤ).toNat).map fun (i : ℕ) => defaultWeekDef (i : ℤ) 5) :=
  interpolate_weeks_shape [] 2 5 [defaultWeekDef 1 5, defaultWeekDef 2 5]
    (by decide) (by decide)

lemma lastLeAux_elim (w : ℤ) (l : List (ℤ × Keyframe)) :
    ∀ acc, lastLeAux w l acc = (lastLeAux w l none).elim acc some := by
  induction l with
  | nil => intro acc; rfl
  | cons x rest ih =>
    intro acc
    show lastLeAux w rest (if x.1 ≤ w then some x else acc) =
      (lastLeAux w rest (if x.1 ≤ w then some x else none)).elim acc some
    rw [ih, ih (if x.1 ≤ w then some x else none)]
    cases h : lastLeAux w rest none with
    | some z => rfl
    | none => by_cases hx : x.1 ≤ w <;> simp [hx]

lemma lastLeAux_cons (w : ℤ) (x : ℤ × Keyframe) (l : List (ℤ × Keyframe)) :
    lastLeAux w (x :: l) none =
      (lastLeAux w l none).elim (if x.1 ≤ w then some x else none) some := by
  show lastLeAux w l (if x.1 ≤ w then some x else none) = _
  exact lastLeAux_elim w l _

lemma lastLeAux_mem (w : ℤ) :
    ∀ (l : List (ℤ × Keyframe)) (z : ℤ × Keyframe),
      lastLeAux w l none = some z → z ∈ l ∧ z.1 ≤ w := by
  intro l
  induction l with
  | nil => intro z h; exact absurd h (by simp [lastLeAux])
  | cons x rest ih =>
    intro z h
    rw [lastLeAux_cons] at h
    cases h' : lastLeAux w rest none with
    | some z' =>
      rw [h'] at h
      simp only [Option.elim] at h
      obtain ⟨hm, hw⟩ := ih z' h'
      cases h
      exact ⟨List.mem_cons_of_mem x hm, hw⟩
    | none =>
      rw [h'] at h
      simp only [Option.elim] at h
      by_cases hx : x.1 ≤ w
      · rw [if_pos hx] at h
        cases h
        exact ⟨List.mem_cons_self x rest, hx⟩
      · rw [if_neg hx] at h
        exact absurd h (by simp)

lemma lastLeAux_of_gt (w : ℤ) :
    ∀ (l : List (ℤ × Keyframe)), (∀ y ∈ l, ¬ y.1 ≤ w) →
      ∀ acc, lastLeAux w l acc = acc := by
  intro l
  induction l with
  | nil => intro _ acc; rfl
  | cons x rest ih =>
    intro h acc
    show lastLeAux w rest (if x.1 ≤ w then some x else acc) = acc
    rw [if_neg (h x (List.mem_cons_self x rest)),
      ih (fun y hy => h y (List.mem_cons_of_mem x hy)) acc]

lemma scanActive_eq_lastLeAux (w : ℤ) :
    ∀ (l : List (ℤ × Keyframe)), List.Pairwise posLe l →
      ∀ acc, scanActive w l acc = lastLeAux w l acc := by
  intro l
  induction l with
  | nil => intro _ acc; rfl
  | cons x rest ih =>
    intro hs acc
    obtain ⟨hx, hrest⟩ := List.pairwise_cons.1 hs
    show (if x.1 ≤ w then scanActive w rest (some x) else acc) =
      lastLeAux w rest (if x.1 ≤ w then some x else acc)
    by_cases h : x.1 ≤ w
    · rw [if_pos h, if_pos h, ih hrest]
    · rw [if_neg h, if_neg h,
        lastLeAux_of_gt w rest (fun y hy hyw => h (le_trans (hx y hy) hyw)) acc]

lemma lastLeAux_orderedInsert (w : ℤ) (x : ℤ × Keyframe) :
    ∀ (S : List (ℤ × Keyframe)), List.Pairwise posLe S →
      lastLeAux w (List.orderedInsert posLe x S) none =
        combineOpt w x (lastLeAux w S none) := by
  intro S
  induction S with
  | nil =>
    intro _
    show lastLeAux w [x] none = _
    rw [lastLeAux_cons]
    rfl
  | cons y S' ih =>
    intro hs
    obtain ⟨hy, hS'⟩ := List.pairwise_cons.1 hs
    by_cases hxy : posLe x y
    · simp only [List.orderedInsert, if_pos hxy]
      rw [lastLeAux_cons]
      cases hz : lastLeAux w (y :: S') none with
      | some z =>
        obtain ⟨hzm, hzw⟩ := lastLeAux_mem w (y :: S') z hz
        have hxz : x.1 ≤ z.1 := by
          rcases List.mem_cons.1 hzm with h | h
          · exact h ▸ hxy
          · exact le_trans hxy (hy z h)
        have hnc : ¬ (x.1 ≤ w ∧ z.1 < x.1) := fun hc => absurd hc.2 (not_lt.2 hxz)
        simp [combineOpt, Option.elim, hnc]
      | none => rfl
    · have hyx : y.1 < x.1 := not_le.1 hxy
      simp only [List.orderedInsert, if_neg hxy]
      rw [lastLeAux_cons, ih hS', lastLeAux_cons]
      cases hz : lastLeAux w S' none with
      | some z =>
        by_cases hc : x.1 ≤ w ∧ z.1 < x.1 <;> simp [combineOpt, Option.elim, hc]
      | none =>
        by_cases hyw : y.1 ≤ w
        · by_cases hxw : x.1 ≤ w
          · simp [combineOpt, Option.elim, hyw, hxw, hyx]
          · simp [combineOpt, Option.elim, hyw, hxw]
        · have hxw : ¬ x.1 ≤ w := fun h => hyw (le_trans hyx.le h)
          simp [combineOpt, Option.elim, hyw, hxw]

lemma lastLeAux_insertionSort (w : ℤ) :
    ∀ l : List (ℤ × Keyframe),
      lastLeAux w (List.insertionSort posLe l) none = pickActive w l := by
  intro l
  induction l with
  | nil => rfl
  | cons x xs ih =>
    show lastLeAux w (List.orderedInsert posLe x (List.insertionSort posLe xs)) none = _
    rw [lastLeAux_orderedInsert w x _ (List.sorted_insertionSort posLe xs), ih]
    rfl

lemma pickActive_mem (w : ℤ) :
    ∀ (l : List (ℤ × Keyframe)) (z : ℤ × Keyframe),
      pickActive w l = some z → z ∈ l ∧ z.1 ≤ w := by
  intro l
  induction l with
  | nil => intro z h; exact absurd h (by simp [pickActive])
  | cons x xs ih =>
    intro z h
    simp only [pickActive] at h
    cases hp : pickActive w xs with
    | none =>
      rw [hp] at h
      simp only [combineOpt] at h
      split_ifs at h with hx
      cases h
      exact ⟨List.mem_cons_self x xs, hx⟩
    | some z' =>
      rw [hp] at h
      simp only [combineOpt] at h
      split_ifs at h with hc
      · cases h
        exact ⟨List.mem_cons_self x xs, hc.1⟩
      · injection h with h2
        subst h2
        obtain ⟨hm, hw⟩ := ih _ hp
        exact ⟨List.mem_cons_of_mem x hm, hw⟩

lemma pickActive_ties (w k : ℤ) (hkw : k ≤ w) :
    ∀ (l : List (ℤ × Keyframe)) (lastP : ℤ × Keyframe),
      (∀ p ∈ l, p.1 ≤ w → p.1 ≤ k) →
      (l.filter fun p => p.1 = k).getLast? = some lastP →
      pickActive w l = some lastP := by
  intro l
  induction l with
  | nil => intro lastP _ h; exact absurd h (by simp)
  | cons x xs ih =>
    intro lastP hbound hlast
    simp only [pickActive]
    by_cases hxk : x.1 = k
    · rw [List.filter_cons, if_pos (by simp [hxk])] at hlast
      cases hF : xs.filter fun p => p.1 = k with
      | nil =>
        rw [hF] at hlast
        simp only [List.getLast?_singleton, Option.some.injEq] at hlast
        subst hlast
        have hxw : x.1 ≤ w := hxk.trans_le hkw
        cases hp : pickActive w xs with
        | none => simp [combineOpt, hxw]
        | some z =>
          obtain ⟨hzm, hzw⟩ := pickActive_mem w xs z hp
          have hzk : z.1 ≤ k := hbound z (List.mem_cons_of_mem _ hzm) hzw
          have hzne : z.1 ≠ k := by
            intro he
            have hzf : z ∈ xs.filter fun p => p.1 = k :=
              List.mem_filter.2 ⟨hzm, by simp [he]⟩
            rw [hF] at hzf
            exact absurd hzf (by simp)
          have hzx : z.1 < x.1 := (lt_of_le_of_ne hzk hzne).trans_eq hxk.symm
          simp [combineOpt, hxw, hzx]
      | cons f fs =>
        rw [hF, List.getLast?_cons_cons] at hlast
        have hlast' : (xs.filter fun p => p.1 = k).getLast? = some lastP := by
          rw [hF]; exact hlast
        have hpick := ih lastP
          (fun p hp hpw => hbound p (List.mem_cons_of_mem _ hp) hpw) hlast'
        rw [hpick]
        have hlk : lastP.1 = k := by
          simpa using (List.mem_filter.1 (List.mem_of_getLast?_eq_some hlast')).2
        have hnc : ¬ (x.1 ≤ w ∧ lastP.1 < x.1) := by
          rintro ⟨-, hlt⟩
          rw [hlk, hxk] at hlt
          exact lt_irrefl k hlt
        simp [combineOpt, hnc]
    · rw [List.filter_cons, if_neg (by simp [hxk])] at hlast
      have hpick := ih lastP
        (fun p hp hpw => hbound p (List.mem_cons_of_mem _ hp) hpw) hlast
      rw [hpick]
      have hlk : lastP.1 = k := by
        simpa using (List.mem_filter.1 (List.mem_of_getLast?_eq_some hlast)).2
      have hnc : ¬ (x.1 ≤ w ∧ lastP.1 < x.1) := by
        rintro ⟨hxw, hlt⟩
        have := hbound x (List.mem_cons_self _ _) hxw
        rw [hlk] at hlt
        omega
      simp [combineOpt, hnc]

/-- C3: when two or more keyframes resolve to the same week index `k`, then
for every program week `w` with `k ≤ w ≤ totalWeeks` that is not at or past
a larger resolved index, `interpolate_weeks` emits the `WeekDefinition`
built from the keyframe that appears last in original list order among
those tied at `k` (the last one in stable-sorted order). -/
theorem interpolate_weeks_tie_break
    (weeks : List Keyframe) (tw : ℤ) (dd : ℚ)
    (resolved : List (ℤ × Keyframe)) (res : List WeekDefinition)
    (hres : resolveAll weeks tw = .ok resolved)
    (hout : interpolate_weeks weeks tw dd = .ok res)
    (k w : ℤ) (lastP : ℤ × Keyframe)
    (h2 : 2 ≤ (resolved.filter fun p => p.1 = k).length)
    (hlast : (resolved.filter fun p => p.1 = k).getLast? = some lastP)
    (hw0 : 1 ≤ w) (hwk : k ≤ w) (hwtw : w ≤ tw)
    (hno : ∀ p ∈ resolved, k < p.1 → w < p.1) :
    res[(w - 1).toNat]? = some (mkWeekDef w lastP.2 dd) := by
  unfold interpolate_weeks at hout
  rw [hres] at hout
  simp only [Except.map, Except.ok.injEq] at hout
  obtain ⟨first, rest, hs⟩ : ∃ f r, List.insertionSort posLe resolved = f :: r := by
    cases hsort : List.insertionSort posLe resolved with
    | nil =>
      have hlen := List.length_insertionSort posLe resolved
      rw [hsort] at hlen
      simp only [List.length_nil] at hlen
      have : (resolved.filter fun p => p.1 = k).length ≤ resolved.length :=
        List.length_filter_le _ _
      omega
    | cons f r => exact ⟨f, r, rfl⟩
  rw [hs] at hout
  subst hout
  have hidx : (w - 1).toNat < tw.toNat := by omega
  rw [List.getElem?_map, List.getElem?_range' 1 1 hidx, Option.map_some']
  have hw' : ((1 + 1 * (w - 1).toNat : ℕ) : ℤ) = w := by omega
  rw [hw']
  have hsorted : List.Pairwise posLe (first :: rest) := by
    rw [← hs]
    exact List.sorted_insertionSort posLe resolved
  have hscan : scanActive w (first :: rest) none = some lastP := by
    rw [scanActive_eq_lastLeAux w _ hsorted none, ← hs, lastLeAux_insertionSort]
    refine pickActive_ties w k hwk resolved lastP ?_ hlast
    intro p hp hpw
    by_contra hgt
    exact absurd hpw (not_le.2 (hno p hp (not_le.1 hgt)))
  rw [hscan]
  rfl

/-- C3 witness: two keyframes both at integer position 2 in a 3-week
program; week 2 gets the later keyframe (phase "B"). -/
theorem interpolate_weeks_tie_break_witness :
    ([mkWeekDef 1 { position := some (.intV 2), phaseName := some "A" } 20,
      mkWeekDef 2 { position := some (.intV 2), phaseName := some "B" } 20,
      mkWeekDef 3 { position := some (.intV 2), phaseName := some "B" } 20] :
        List WeekDefinition)[((2 : ℤ) - 1).toNat]? =
      some (mkWeekDef 2
        ({ position := some (.intV 2), phaseName := some "B" } : Keyframe) 20) :=
  interpolate_weeks_tie_break
    [{ position := some (.intV 2), phaseName := some "A" },
     { position := some (.intV 2), phaseName := some "B" }] 3 20
    [(2, { position := some (.intV 2), phaseName := some "A" }),
     (2, { position := some (.intV 2), phaseName := some "B" })]
    [mkWeekDef 1 { position := some (.intV 2), phaseName := some "A" } 20,
     mkWeekDef 2 { position := some (.intV 2), phaseName := some "B" } 20,
     mkWeekDef 3 { position := some (.intV 2), phaseName := some "B" } 20]
    (by decide) (by decide) 2 2
    (2, { position := some (.intV 2), phaseName := some "B" })
    (by decide) (by decide) (by decide) (by decide) (by decide) (by decide)

end CardioKinetic
